import Mathlib

/-!
Verification of the go-hep `rsqldrv` ROOT/SQL driver (connection registry,
statement compilation, dependency analysis, row cursor) and of the `rhist`
ConfidenceLevel serialization round-trip.

The Go source is embedded shallowly: Go maps become association lists,
pointer-mutated registry state becomes explicit state passing, Go panics
become distinguished outcomes, and fallible code returns Except/Option.
External collaborators that are not part of the verified source (the SQL
text parser, the rtree columnar scan, the rbytes buffer primitives, the
expression evaluator) are modelled from the specification where noted.
-/

/-- Error taxonomy of the driver. Returned Go errors are ordinary
constructors; `goPanic` marks places where the Go code panics instead of
returning an error; `wrapped` models errors.Wrap / errors.Wrapf. -/
inductive SQLErr where
  | parseError (msg : String)
  | openError (msg : String)
  | invalidTables (n : Nat)
  | keyNotFound (name : String)
  | notATree (name : String)
  | unknownColumn (col tree : String)
  | invalidCmpOp (op : String)
  | invalidBinOp (op : String)
  | invalidFilterExpr (desc : String)
  | typeErr (desc : String)
  | missingIdent (name : String)
  | wrapped (msg : String) (e : SQLErr)
  | goPanic (msg : String)
deriving DecidableEq

/-- Whether an error is a parse/resolution error (detected while compiling
a statement, as opposed to an evaluation-time error). -/
def SQLErr.isResolution : SQLErr → Bool
  | .parseError _ => true
  | .openError _ => true
  | .invalidTables _ => true
  | .keyNotFound _ => true
  | .notATree _ => true
  | .unknownColumn _ _ => true
  | .wrapped _ e => e.isResolution
  | _ => false

/-! ### Association lists standing for Go maps -/

/-- Go map read: `m[k]` with ok-flag, as an Option. -/
def lookupA {β : Type} (l : List (String × β)) (k : String) : Option β :=
  (l.find? (fun p => p.1 = k)).map (fun p => p.2)

/-- Go map write: `m[k] = v` (replace the binding if present, else add). -/
def setA {β : Type} : List (String × β) → String → β → List (String × β)
  | [], k, v => [(k, v)]
  | (k', v') :: rest, k, v =>
      if k' = k then (k, v) :: rest else (k', v') :: setA rest k v

/-- Go map delete: `delete(m, k)`. -/
def eraseA {β : Type} : List (String × β) → String → List (String × β)
  | [], _ => []
  | (k', v') :: rest, k => if k' = k then rest else (k', v') :: eraseA rest k

theorem lookupA_setA_self {β : Type} (l : List (String × β)) (k : String) (v : β) :
    lookupA (setA l k v) k = some v := by
  induction l with
  | nil => simp [lookupA, setA, List.find?]
  | cons p rest ih =>
      obtain ⟨k', v'⟩ := p
      by_cases h : k' = k
      · simp [setA, h, lookupA, List.find?]
      · simp only [setA, if_neg h]
        simpa [lookupA, List.find?, h] using ih

theorem lookupA_cons_ne {β : Type} (k' k : String) (v' : β) (rest : List (String × β))
    (h : k' ≠ k) : lookupA ((k', v') :: rest) k = lookupA rest k := by
  simp [lookupA, List.find?_cons_of_neg, h]

theorem eraseA_setA_of_not_mem {β : Type} (l : List (String × β)) (k : String) (v : β)
    (h : lookupA l k = none) : eraseA (setA l k v) k = l := by
  induction l with
  | nil => simp [setA, eraseA]
  | cons p rest ih =>
      obtain ⟨k', v'⟩ := p
      by_cases hk : k' = k
      · exfalso
        simp [lookupA, hk] at h
      · rw [lookupA_cons_ne k' k v' rest hk] at h
        simp only [setA, if_neg hk, eraseA, if_neg hk]
        rw [ih h]

theorem keys_setA_of_mem {β : Type} (l : List (String × β)) (k : String) (v c : β)
    (h : lookupA l k = some c) :
    (setA l k v).map Prod.fst = l.map Prod.fst := by
  induction l with
  | nil => simp [lookupA] at h
  | cons p rest ih =>
      obtain ⟨k', v'⟩ := p
      by_cases hk : k' = k
      · simp [setA, hk]
      · rw [lookupA_cons_ne k' k v' rest hk] at h
        simp only [setA, if_neg hk, List.map_cons, List.cons.injEq, true_and]
        exact ih h

/-! ### Values, trees and files

`Value` is the dynamic value universe flowing through the evaluator
(Go interface values). `Tree`, `Branch` and `File` model the riofs/rtree
collaborators: a file maps object names to objects, a tree has named
branches (each with a first leaf) and per-row data. -/

inductive Value where
  | vbool (b : Bool)
  | vint (n : Int)
  | vstr (s : String)
  | vbytes (s : String)
  | vlist (vs : List Value)

/-- Whether a dynamic value is a Go bool (the `.(bool)` type assertion
succeeds exactly on these). -/
def Value.isBool : Value → Bool
  | .vbool _ => true
  | _ => false

/-- A tree branch together with the name of its first leaf
(`branch.Leaves()[0]`). -/
structure Branch where
  bname : String
  leafName : String

/-- rtree.Tree collaborator: name, schema (ordered branches) and row data
(each row an association from branch name to value). -/
structure RTree where
  tname : String
  branches : List Branch
  data : List (List (String × Value))

/-- Embeds tree.Branch(name): look a branch up by name. -/
def RTree.branch (t : RTree) (n : String) : Option Branch :=
  t.branches.find? (fun b => b.bname = n)

/-- The ordered branch (column) names of the schema. -/
def RTree.branchNames (t : RTree) : List String :=
  t.branches.map (fun b => b.bname)

inductive FileObj where
  | treeObj (t : RTree)
  | otherObj (cls : String)

/-- riofs.File collaborator: a named handle with a directory of objects;
`closeErr` is the outcome its external Close would report. -/
structure File where
  name : String
  closeErr : Option String
  objs : List (String × FileObj)

/-! ### Connection registry (rootDriver / driverConn)

Embeds `rootDriver.open`, `rootDriver.connect`, `driverConn.Close` and
`driverConn.Prepare` from driver.go. The two Go maps `drv.dbs` and
`drv.owns` become association lists; the shared `*driverConn` pointer is
identified by its registry key; `conn.stop` (set of open prepared
statements, each of whose Close panics with "not implemented") is
represented by its cardinality `nstop`. -/

structure ConnState where
  file : File
  nstop : Nat
  refs : Int

structure RootDriver where
  dbs : List (String × ConnState)
  owns : List (String × Bool)

/-- rootDriver.open: return the cached connection with its refcount bumped,
or open the backing file (externally supplied outcome `openF`), register it
as owned and hand it out with refcount 1. -/
def rootDriverOpen (drv : RootDriver) (fname : String) (openF : Except String File) :
    Except SQLErr (RootDriver × String) :=
  match lookupA drv.dbs fname with
  | some conn =>
      .ok ({ drv with dbs := setA drv.dbs fname { conn with refs := conn.refs + 1 } }, fname)
  | none =>
      match openF with
      | .error e => .error (.wrapped ("rsqldriver: could not open file") (.openError e))
      | .ok f =>
          .ok ({ dbs := setA drv.dbs fname ⟨f, 0, 1⟩,
                 owns := setA drv.owns fname true }, fname)

/-- rootDriver.connect: adopt an already-open file handle, registering it
as NOT owned; dedup/refcount exactly as open. -/
def rootDriverConnect (drv : RootDriver) (f : File) : RootDriver × String :=
  match lookupA drv.dbs f.name with
  | some conn =>
      ({ drv with dbs := setA drv.dbs f.name { conn with refs := conn.refs + 1 } }, f.name)
  | none =>
      ({ dbs := setA drv.dbs f.name ⟨f, 0, 1⟩,
         owns := setA drv.owns f.name false }, f.name)

inductive CloseRes where
  | okC
  | errC (msg : String)
  | panickedC (msg : String)
deriving DecidableEq

/-- Result of driverConn.Close: the returned error (or panic), whether
`conn.f.Close()` was invoked, and the registry afterwards. -/
structure CloseOutcome where
  res : CloseRes
  fileClosed : Bool
  drv : RootDriver

/-- The tail of driverConn.Close: `if conn.refs == 1` delete the registry
entry (keyed by the file name), then `conn.refs = 0`. -/
def finishClose (drv : RootDriver) (key : String) (conn : ConnState) : RootDriver :=
  if conn.refs = 1 then { drv with dbs := eraseA drv.dbs conn.file.name }
  else { drv with dbs := setA drv.dbs key { conn with refs := 0 } }

/-- driverConn.Close. With refs > 1 it only decrements. Otherwise it closes
each open prepared statement first (driverStmt.Close panics with
"not implemented", so a non-empty statement set panics and leaves the
registry untouched), then closes the backing file when the entry is owned
(an error returns early, before the registry delete), and only then removes
the entry. -/
def driverConnClose (drv : RootDriver) (key : String) : Option CloseOutcome :=
  match lookupA drv.dbs key with
  | none => none
  | some conn =>
      if 1 < conn.refs then
        some ⟨.okC, false, { drv with dbs := setA drv.dbs key { conn with refs := conn.refs - 1 } }⟩
      else if conn.nstop ≠ 0 then
        some ⟨.panickedC ("not implemented"), false, drv⟩
      else
        if (lookupA drv.owns conn.file.name).getD false then
          match conn.file.closeErr with
          | some e => some ⟨.errC e, true, drv⟩
          | none => some ⟨.okC, true, finishClose drv key conn⟩
        else
          some ⟨.okC, false, finishClose drv key conn⟩

/-- Iterated adoption of the same handle (n logical connections). -/
def connectN (f : File) : Nat → RootDriver → RootDriver
  | 0, drv => drv
  | n + 1, drv => connectN f n (rootDriverConnect drv f).1

/-- Close a connection n times, requiring every close to succeed WITHOUT
the backing file ever being closed; none if any close errs, panics or
touches the file. -/
def closeNoFileN (key : String) : Nat → RootDriver → Option RootDriver
  | 0, drv => some drv
  | n + 1, drv =>
      match driverConnClose drv key with
      | some ⟨.okC, false, drv'⟩ => closeNoFileN key n drv'
      | _ => none

/-! ### SQL abstract tree shapes (sqlparser consumption boundary)

The external SQL parser is a black box; these inductives model exactly the
AST shapes driver.go consumes. `Expr`/`ExprList` are mutually inductive so
value tuples allow structural induction. A qualified column reference is
already reduced to its bare identifier (ColIdent CompliantName), as the
driver does. -/

mutual
inductive Expr where
  | colName (name : String)
  | sqlVal (v : Value)
  | boolVal (b : Bool)
  | comparisonE (op : String) (l r : Expr)
  | andE (l r : Expr)
  | orE (l r : Expr)
  | parenE (e : Expr)
  | binaryE (op : String) (l r : Expr)
  | unaryE (op : String) (e : Expr)
  | valTuple (es : ExprList)

inductive ExprList where
  | nil
  | cons (e : Expr) (es : ExprList)
end

/-- A select expression: `expr AS alias` (alias may be empty) or a
star expression with an optional table qualifier (empty when absent). -/
inductive SelectExpr where
  | aliased (e : Expr) (asName : String)
  | star (qual : String)

/-- A FROM table expression; driver.go only accepts a plain table name. -/
inductive TableExpr where
  | aliasedTable (name : String)

/-- A WHERE clause: its kind string (`where` or `having`) and expression. -/
structure WhereClause where
  typ : String
  wexpr : Expr

/-- A parsed SELECT statement (the fields driver.go reads). -/
structure Select where
  selectExprs : List SelectExpr
  fromCl : List TableExpr
  whereCl : Option WhereClause

/-- A parsed SQL statement. -/
inductive Statement where
  | selectS (s : Select)
  | otherS (kind : String)

/-- driverConn.Prepare: parse (external sqlparser, its outcome supplied as
`parseRes`), register the statement in the open-statement set of the connection,
return it. No resolution against the dataset happens here. -/
def driverConnPrepare (drv : RootDriver) (key : String) (parseRes : Except String Statement) :
    Except SQLErr (RootDriver × Statement) :=
  match parseRes with
  | .error e => .error (.parseError e)
  | .ok ast =>
      match lookupA drv.dbs key with
      | none => .error (.goPanic ("nil connection"))
      | some conn =>
          .ok ({ drv with dbs := setA drv.dbs key { conn with nstop := conn.nstop + 1 } }, ast)

/-! ### Expression model and evaluator

`expression` is the compiled expression tree (identExpr / valueExpr /
binExpr / tupleExpr of the driver). The compiler `newExprFrom` is embedded
from driver.go. The operator table and the evaluator live in repository
files outside the provided source; they are modelled from the spec. -/

/-- Modelled from the spec: the operator tokens of the expression language
(comparisons, arithmetic, logical and/or); `operatorFrom` maps any other
token to `invalid`, which the compiler rejects at compile time. -/
inductive Op where
  | eq | ne | lt | le | gt | ge
  | add | sub | mul | div
  | andand | oror
  | invalid
deriving DecidableEq

/-- Modelled from the spec: operatorFrom maps an operator token string to
its Op, `invalid` for unsupported tokens. -/
def operatorFrom : String → Op
  | "=" => .eq
  | "!=" => .ne
  | "<" => .lt
  | "<=" => .le
  | ">" => .gt
  | ">=" => .ge
  | "+" => .add
  | "-" => .sub
  | "*" => .mul
  | "/" => .div
  | _ => .invalid

mutual
inductive expression where
  | identE (name : String)
  | valueE (v : Value)
  | binE (op : Op) (l r : expression)
  | tupleE (es : expressionList)

inductive expressionList where
  | nil
  | cons (e : expression) (es : expressionList)
end

/-- Modelled from the spec: newBinExpr builds a binary-operation node from
an already-validated operator and compiled operands. -/
def newBinExpr (op : Op) (l r : expression) : Except SQLErr expression :=
  .ok (.binE op l r)

/-- Modelled from the spec: newValueExpr compiles a literal SQL value to a
constant expression node. -/
def newValueExpr (v : Value) : Except SQLErr expression :=
  .ok (.valueE v)

mutual
/-- newExprFrom: compile a parsed SQL expression into an evaluable
expression node. For ComparisonExpr the operator is validated before the
operands are compiled; for BinaryExpr the operands are compiled first.
The default arm (here: unary expressions) is the invalid-filter error. -/
def newExprFrom : Expr → Except SQLErr expression
  | .comparisonE op l r =>
      if operatorFrom op = .invalid then .error (.invalidCmpOp op)
      else
        match newExprFrom l with
        | .error e => .error e
        | .ok le =>
            match newExprFrom r with
            | .error e => .error e
            | .ok re => newBinExpr (operatorFrom op) le re
  | .parenE e => newExprFrom e
  | .andE l r =>
      match newExprFrom l with
      | .error e => .error e
      | .ok le =>
          match newExprFrom r with
          | .error e => .error e
          | .ok re => newBinExpr .andand le re
  | .orE l r =>
      match newExprFrom l with
      | .error e => .error e
      | .ok le =>
          match newExprFrom r with
          | .error e => .error e
          | .ok re => newBinExpr .oror le re
  | .colName n => .ok (.identE n)
  | .sqlVal v => newValueExpr v
  | .boolVal b => .ok (.valueE (.vbool b))
  | .binaryE op l r =>
      match newExprFrom l with
      | .error e => .error e
      | .ok le =>
          match newExprFrom r with
          | .error e => .error e
          | .ok re =>
              if operatorFrom op = .invalid then .error (.invalidBinOp op)
              else newBinExpr (operatorFrom op) le re
  | .valTuple es =>
      match newExprList es with
      | .error e => .error e
      | .ok vs => .ok (.tupleE vs)
  | .unaryE op _ => .error (.invalidFilterExpr op)

def newExprList : ExprList → Except SQLErr expressionList
  | .nil => .ok .nil
  | .cons e es =>
      match newExprFrom e with
      | .error err => .error err
      | .ok v =>
          match newExprList es with
          | .error err => .error err
          | .ok vs => .ok (.cons v vs)
end

/-- Modelled from the spec: apply a validated binary operator to two
evaluated operands. Comparisons require numeric-numeric or string-string
operands, logical operators require booleans, arithmetic requires numerics;
any mismatch is a type error. -/
def applyOp : Op → Value → Value → Except SQLErr Value
  | .eq, .vint a, .vint b => .ok (.vbool (a = b))
  | .eq, .vstr a, .vstr b => .ok (.vbool (a = b))
  | .ne, .vint a, .vint b => .ok (.vbool (a ≠ b))
  | .ne, .vstr a, .vstr b => .ok (.vbool (a ≠ b))
  | .lt, .vint a, .vint b => .ok (.vbool (a < b))
  | .lt, .vstr a, .vstr b => .ok (.vbool (a < b))
  | .le, .vint a, .vint b => .ok (.vbool (a ≤ b))
  | .le, .vstr a, .vstr b => .ok (.vbool (a ≤ b))
  | .gt, .vint a, .vint b => .ok (.vbool (b < a))
  | .gt, .vstr a, .vstr b => .ok (.vbool (b < a))
  | .ge, .vint a, .vint b => .ok (.vbool (b ≤ a))
  | .ge, .vstr a, .vstr b => .ok (.vbool (b ≤ a))
  | .andand, .vbool a, .vbool b => .ok (.vbool (a && b))
  | .oror, .vbool a, .vbool b => .ok (.vbool (a || b))
  | .add, .vint a, .vint b => .ok (.vint (a + b))
  | .sub, .vint a, .vint b => .ok (.vint (a - b))
  | .mul, .vint a, .vint b => .ok (.vint (a * b))
  | .div, .vint a, .vint b => .ok (.vint (a / b))
  | _, _, _ => .error (.typeErr ("operand type mismatch"))

mutual
/-- Modelled from the spec: evaluate an expression against a row context
(column name to current-row value). Literals return their stored value; a
column reference missing from the context is an internal invariant
violation; binary nodes evaluate left then right eagerly; tuples evaluate
elements left to right. -/
def evalExpr (ctx : List (String × Value)) : expression → Except SQLErr Value
  | .valueE v => .ok v
  | .identE n =>
      match lookupA ctx n with
      | some v => .ok v
      | none => .error (.missingIdent n)
  | .binE op l r =>
      match evalExpr ctx l with
      | .error e => .error e
      | .ok a =>
          match evalExpr ctx r with
          | .error e => .error e
          | .ok b => applyOp op a b
  | .tupleE es =>
      match evalList ctx es with
      | .error e => .error e
      | .ok vs => .ok (.vlist vs)

def evalList (ctx : List (String × Value)) : expressionList → Except SQLErr (List Value)
  | .nil => .ok []
  | .cons e es =>
      match evalExpr ctx e with
      | .error err => .error err
      | .ok v =>
          match evalList ctx es with
          | .error err => .error err
          | .ok vs => .ok (v :: vs)
end

/-! ### Dependency analysis (extractDepsFromSelect)

The Go code walks the select expressions and the WHERE expression with
sqlparser.Walk, collecting each ColIdent into an ordered, de-duplicated
list (`markBranch` keeps first occurrences and skips empty names); a star
expression expands to all tree branches (panicking when qualified by a
different table name). Each collected name is then resolved to a branch,
failing with the unknown-column error when absent. -/

/-- markBranch: record a column name unless it is empty or already seen. -/
def markBranch (acc : List String) (name : String) : List String :=
  if name ≠ "" ∧ name ∉ acc then acc ++ [name] else acc

/-- Fold markBranch over names in walk order. -/
def markAll (acc : List String) (names : List String) : List String :=
  names.foldl markBranch acc

mutual
/-- The collectCols closure of extractDepsFromSelect, specialised to one
expression subtree: every ColIdent reached by the walk is marked, in walk
order (left to right, depth first). -/
def collectExpr (acc : List String) : Expr → List String
  | .colName n => markBranch acc n
  | .sqlVal _ => acc
  | .boolVal _ => acc
  | .comparisonE _ l r => collectExpr (collectExpr acc l) r
  | .andE l r => collectExpr (collectExpr acc l) r
  | .orE l r => collectExpr (collectExpr acc l) r
  | .parenE e => collectExpr acc e
  | .binaryE _ l r => collectExpr (collectExpr acc l) r
  | .unaryE _ e => collectExpr acc e
  | .valTuple es => collectExprList acc es

def collectExprList (acc : List String) : ExprList → List String
  | .nil => acc
  | .cons e es => collectExprList (collectExpr acc e) es
end

/-- Collect over one select expression. Walking an AliasedExpr visits its
expression and then its alias ColIdent (markBranch skips it when empty). A
star expression with an empty or matching table qualifier marks every
branch of the tree; any other qualifier panics. -/
def collectSelExpr (t : RTree) (acc : List String) : SelectExpr → Except SQLErr (List String)
  | .aliased e a => .ok (markBranch (collectExpr acc e) a)
  | .star q =>
      if q = "" ∨ q = t.tname then .ok (markAll acc t.branchNames)
      else .error (.goPanic ("rsqldrv: star-expression with other table name not supported"))

/-- Collect the ordered, de-duplicated dependency names of a SELECT:
select expressions first, then the WHERE expression. -/
def collectDeps (t : RTree) (stmt : Select) : Except SQLErr (List String) :=
  match stmt.selectExprs.foldlM (collectSelExpr t) [] with
  | .error e => .error e
  | .ok acc =>
      match stmt.whereCl with
      | none => .ok acc
      | some w => .ok (collectExpr acc w.wexpr)

/-- A column to read from storage: rtree.ScanVar (branch name and its
first leaf; the reflected value slot is taken over by the scan stub). -/
structure ScanVar where
  name : String
  leaf : String

/-- Resolve each collected name against the tree schema, in order; the
first name with no branch fails with the unknown-column error. -/
def resolveVars (t : RTree) : List String → Except SQLErr (List ScanVar)
  | [] => .ok []
  | n :: rest =>
      match t.branch n with
      | none => .error (.unknownColumn n t.tname)
      | some b =>
          match resolveVars t rest with
          | .error e => .error e
          | .ok vs => .ok (⟨b.bname, b.leafName⟩ :: vs)

/-- extractDepsFromSelect: the dependency analyzer of driver.go. -/
def extractDepsFromSelect (t : RTree) (stmt : Select) : Except SQLErr (List ScanVar) :=
  match collectDeps t stmt with
  | .error e => .error e
  | .ok cols => resolveVars t cols

/-! ### Output column extraction (extractColsFromSelect) -/

mutual
/-- The collect closure of extractColsFromSelect: ColName contributes its
identifier; binary expressions and SQL literals contribute a dummy empty
name and stop; paren/tuple/unary recurse; everything else stops silently. -/
def collectColsExpr : Expr → List String
  | .colName n => [n]
  | .binaryE _ _ _ => [""]
  | .sqlVal _ => [""]
  | .parenE e => collectColsExpr e
  | .valTuple es => collectColsExprList es
  | .unaryE _ e => collectColsExpr e
  | .comparisonE _ _ _ => []
  | .andE _ _ => []
  | .orE _ _ => []
  | .boolVal _ => []

def collectColsExprList : ExprList → List String
  | .nil => []
  | .cons e es => collectColsExpr e ++ collectColsExprList es
end

/-- extractColsFromSelect: output column names of the first select
expression only; a star expression yields every branch name in schema
order (its qualifier is not inspected here). -/
def extractColsFromSelect (t : RTree) (se0 : SelectExpr) : List String :=
  match se0 with
  | .aliased e _ => collectColsExpr e
  | .star _ => t.branchNames

/-! ### Storage scan and row cursor -/

/-- Modelled from the spec: the columnar scan primitive. Opening a scan
over a list of scan variables captures exactly those column names; the
pending rows hold the values of just those columns, in variable order. -/
structure TreeScanner where
  cols : List String
  pending : List (List Value)

/-- Modelled from the spec: rtree.NewTreeScannerVars opens a scan over
exactly the given variables. -/
def newTreeScannerVars (t : RTree) (vars : List ScanVar) : TreeScanner :=
  ⟨vars.map (fun v => v.name),
   t.data.map (fun row => vars.map (fun v => (lookupA row v.name).getD (.vint 0)))⟩

/-- The compiled driverRows cursor: output column names, dependency names,
the storage scan, the projection expression and the optional filter. -/
structure DriverRows where
  cols : List String
  deps : List String
  cursor : TreeScanner
  eval : expression
  filter : Option expression

/-- driverRows.Columns. -/
def driverRowsColumns (r : DriverRows) : List String := r.cols

/-- Convert ExprList from a list of parsed expressions (the synthesized
ValTuple of a star projection). -/
def toExprList : List Expr → ExprList
  | [] => .nil
  | e :: es => .cons e (toExprList es)

/-- Convert a list of compiled expressions to an expressionList. -/
def toExpressionList : List expression → expressionList
  | [] => .nil
  | e :: es => .cons e (toExpressionList es)

/-- Compile the projection of the first select expression: a star
synthesizes a value tuple of column references over the already-extracted
output columns; an explicit expression list compiles only its first
expression (compilation failures are wrapped as in newDriverRows). -/
def compileProjection (cols : List String) (se0 : SelectExpr) : Except SQLErr expression :=
  match se0 with
  | .aliased e _ =>
      match newExprFrom e with
      | .error err => .error (.wrapped ("could not generate row expression") err)
      | .ok ev => .ok ev
  | .star _ =>
      match newExprFrom (.valTuple (toExprList (cols.map Expr.colName))) with
      | .error err =>
          .error (.wrapped ("could not generate row expression from select star") err)
      | .ok ev => .ok ev

/-- newDriverRows: statement compilation. Requires exactly one plain table
in FROM; resolves it in the file directory; requires a tree; extracts the
output columns, then the scan variables (wrapping a failure as
"could not extract scan-vars"); opens the scan over exactly those
variables; compiles the projection (a star synthesizes a tuple of column
references over the extracted columns; otherwise only the first select
expression is compiled); finally compiles the WHERE filter when present
(only the plain where kind is accepted, anything else panics). -/
def newDriverRows (f : File) (stmt : Select) : Except SQLErr DriverRows :=
  match stmt.fromCl with
  | [.aliasedTable name] =>
      match lookupA f.objs name with
      | none => .error (.keyNotFound name)
      | some obj =>
          match obj with
          | .otherObj _ => .error (.notATree name)
          | .treeObj tree =>
              match stmt.selectExprs with
              | [] => .error (.goPanic ("index out of range"))
              | se0 :: _ =>
                  let cols := extractColsFromSelect tree se0
                  match extractDepsFromSelect tree stmt with
                  | .error e => .error (.wrapped ("could not extract scan-vars") e)
                  | .ok vars =>
                      let cursor := newTreeScannerVars tree vars
                      let deps := vars.map (fun v => v.name)
                      match compileProjection cols se0 with
                      | .error e => .error e
                      | .ok ev =>
                          match stmt.whereCl with
                          | none => .ok ⟨cols, deps, cursor, ev, none⟩
                          | some w =>
                              if w.typ = "where" then
                                match newExprFrom w.wexpr with
                                | .error e => .error e
                                | .ok fe => .ok ⟨cols, deps, cursor, ev, some fe⟩
                              else .error (.goPanic ("unknown where type"))
  | l => .error (.invalidTables l.length)

/-- driverConn.Query: parse (externally), then compile a SELECT; any other
statement kind panics ("not implemented"). -/
def driverConnQuery (f : File) (parseRes : Except String Statement) :
    Except SQLErr DriverRows :=
  match parseRes with
  | .error e => .error (.parseError e)
  | .ok (.selectS s) => newDriverRows f s
  | .ok (.otherS _) => .error (.goPanic ("not implemented"))

/-- Result of one driverRows.Next call: end of rows (io.EOF), an output
row, a returned error, or a Go panic. -/
inductive NextRes where
  | eofR
  | rowR (vals : List Value)
  | errR (e : SQLErr)
  | panickedR (msg : String)

/-- Whether a Next outcome is a returned error. -/
def NextRes.isErr : NextRes → Bool
  | .errR _ => true
  | _ => false

/-- Convert a projection result into the destination slots: a tuple is
unpacked positionally, a string becomes a byte sequence, any other scalar
fills the single slot. -/
def convertDest : Value → List Value
  | .vlist vs =>
      vs.map (fun v =>
        match v with
        | .vstr s => .vbytes s
        | x => x)
  | .vstr s => [.vbytes s]
  | v => [v]

/-- The recursive body of driverRows.Next over the remaining storage rows:
advance the scan (end of data is io.EOF, the terminal sentinel), build the
row context, evaluate the filter when present (an evaluation error is
returned; a non-boolean filter value hits the Go bool type assertion and
panics; a false filter recurses to the next storage row), then evaluate
the projection (errors wrapped) and convert it to the output slots. -/
def nextLoop (deps : List String) (filter : Option expression) (ev : expression) :
    List (List Value) → NextRes × List (List Value)
  | [] => (.eofR, [])
  | row :: rest =>
      let vctx := List.zip deps row
      let proceed : NextRes × List (List Value) :=
        match evalExpr vctx ev with
        | .error e => (.errR (.wrapped ("could not evaluate row values") e), rest)
        | .ok v => (.rowR (convertDest v), rest)
      match filter with
      | none => proceed
      | some f =>
          match evalExpr vctx f with
          | .error e => (.errR e, rest)
          | .ok (.vbool true) => proceed
          | .ok (.vbool false) => nextLoop deps filter ev rest
          | .ok _ => (.panickedR ("interface conversion"), rest)

/-- driverRows.Next as a state transformer on the cursor. -/
def driverRowsNext (r : DriverRows) : NextRes × DriverRows :=
  let out := nextLoop r.deps r.filter r.eval r.cursor.pending
  (out.1, { r with cursor := { r.cursor with pending := out.2 } })

/-- Iterate Next n+1 times, keeping the last outcome. -/
def iterNext : Nat → DriverRows → NextRes × DriverRows
  | 0, r => driverRowsNext r
  | n + 1, r => iterNext n (driverRowsNext r).2

/-! ### ConfidenceLevel serialization (rhist)

Embeds ConfidenceLevel.MarshalROOT / UnmarshalROOT. The rbytes buffer
primitives are an excluded collaborator; they are modelled as a token
stream in which each write appends one token per primitive value and each
read consumes one (version/byte-count framing collapses to a version
token; the rbase.Object base payload is one sealed token). The float64
payload type is a parameter, since the code moves floats verbatim. -/

/-- One buffer token: a version header, the base-object payload, or a
primitive value. -/
inductive Tok (α : Type) where
  | vers (v : Int)
  | base (objId objBits : Int)
  | i8 (v : Int)
  | i32 (v : Int)
  | f64 (v : α)

/-- Modelled from the spec: rvers.ConfidenceLevel, the streamer version of
the class (its concrete value does not matter for the round-trip). -/
def rversConfidenceLevel : Int := 1

/-- The TConfidenceLevel fields (rbase.Object base as an id/bits pair,
int32 counters, eight float64 scalars, four float64 and two int32 arrays
whose serialized length is fNNMC). -/
structure ConfidenceLevel (α : Type) where
  baseId : Int
  baseBits : Int
  fNNMC : Int
  fDtot : Int
  fStot : α
  fBtot : α
  fTSD : α
  fNMC : α
  fMCL3S : α
  fMCL5S : α
  fTSB : List α
  fTSS : List α
  fLRS : List α
  fLRB : List α
  fISS : List Int
  fISB : List Int

/-- Go slice expression `l[:n]`: defined when 0 ≤ n ≤ len(l), else the Go
code panics (modelled as none). -/
def sliceTo {α : Type} (l : List α) (n : Int) : Option (List α) :=
  if 0 ≤ n ∧ n.toNat ≤ l.length then some (l.take n.toNat) else none

/-- ConfidenceLevel.MarshalROOT: version header, base object, the two
int32 and six float64 scalars, then each array preceded by an is-array
byte and truncated to its first fNNMC elements. -/
def ConfidenceLevel.MarshalROOT {α : Type} (o : ConfidenceLevel α) :
    Option (List (Tok α)) :=
  match sliceTo o.fTSB o.fNNMC, sliceTo o.fTSS o.fNNMC,
        sliceTo o.fLRS o.fNNMC, sliceTo o.fLRB o.fNNMC,
        sliceTo o.fISS o.fNNMC, sliceTo o.fISB o.fNNMC with
  | some tsb, some tss, some lrs, some lrb, some iss, some isb =>
      some ([Tok.vers rversConfidenceLevel, Tok.base o.baseId o.baseBits,
             Tok.i32 o.fNNMC, Tok.i32 o.fDtot,
             Tok.f64 o.fStot, Tok.f64 o.fBtot, Tok.f64 o.fTSD,
             Tok.f64 o.fNMC, Tok.f64 o.fMCL3S, Tok.f64 o.fMCL5S]
            ++ Tok.i8 1 :: tsb.map Tok.f64
            ++ Tok.i8 1 :: tss.map Tok.f64
            ++ Tok.i8 1 :: lrs.map Tok.f64
            ++ Tok.i8 1 :: lrb.map Tok.f64
            ++ Tok.i8 1 :: iss.map Tok.i32
            ++ Tok.i8 1 :: isb.map Tok.i32)
  | _, _, _, _, _, _ => none

/-- Read one version token. -/
def readVersion {α : Type} : List (Tok α) → Option (Int × List (Tok α))
  | Tok.vers v :: rest => some (v, rest)
  | _ => none

/-- Read the base-object payload. -/
def readBase {α : Type} : List (Tok α) → Option ((Int × Int) × List (Tok α))
  | Tok.base i b :: rest => some ((i, b), rest)
  | _ => none

def readI8 {α : Type} : List (Tok α) → Option (Int × List (Tok α))
  | Tok.i8 v :: rest => some (v, rest)
  | _ => none

def readI32 {α : Type} : List (Tok α) → Option (Int × List (Tok α))
  | Tok.i32 v :: rest => some (v, rest)
  | _ => none

def readF64 {α : Type} : List (Tok α) → Option (α × List (Tok α))
  | Tok.f64 v :: rest => some (v, rest)
  | _ => none

/-- ReadArrayF64 into a freshly resized slice of length n. -/
def readArrayF64 {α : Type} : Nat → List (Tok α) → Option (List α × List (Tok α))
  | 0, ts => some ([], ts)
  | n + 1, Tok.f64 v :: rest =>
      match readArrayF64 n rest with
      | some (vs, r) => some (v :: vs, r)
      | none => none
  | _ + 1, _ => none

/-- ReadArrayI32 into a freshly resized slice of length n. -/
def readArrayI32 {α : Type} : Nat → List (Tok α) → Option (List Int × List (Tok α))
  | 0, ts => some ([], ts)
  | n + 1, Tok.i32 v :: rest =>
      match readArrayI32 n rest with
      | some (vs, r) => some (v :: vs, r)
      | none => none
  | _ + 1, _ => none

/-- Read an is-array byte followed by n float64 array elements. -/
def readArrF64Block {α : Type} (n : Nat) (ts : List (Tok α)) :
    Option (List α × List (Tok α)) :=
  match readI8 ts with
  | none => none
  | some (_, ts1) => readArrayF64 n ts1

/-- Read an is-array byte followed by n int32 array elements. -/
def readArrI32Block {α : Type} (n : Nat) (ts : List (Tok α)) :
    Option (List Int × List (Tok α)) :=
  match readI8 ts with
  | none => none
  | some (_, ts1) => readArrayI32 n ts1

/-- Read the six consecutive float64 scalars. -/
def read6F64 {α : Type} : List (Tok α) → Option (α × α × α × α × α × α × List (Tok α))
  | Tok.f64 a :: Tok.f64 b :: Tok.f64 c :: Tok.f64 d :: Tok.f64 e :: Tok.f64 f :: rest =>
      some (a, b, c, d, e, f, rest)
  | _ => none

/-- ConfidenceLevel.UnmarshalROOT: read the version (a version above the
class version panics), the base object, the scalars, then each array,
resizing to the just-read fNNMC (a negative size panics in resize, modelled
as none). Returns the decoded value and the remaining stream. -/
def ConfidenceLevel.UnmarshalROOT {α : Type} (ts : List (Tok α)) :
    Option (ConfidenceLevel α × List (Tok α)) :=
  match readVersion ts with
  | none => none
  | some (vers, ts) =>
      if rversConfidenceLevel < vers then none
      else
        match readBase ts with
        | none => none
        | some ((bid, bbits), ts) =>
            match readI32 ts with
            | none => none
            | some (nnmc, ts) =>
                if nnmc < 0 then none
                else
                  match readI32 ts with
                  | none => none
                  | some (dtot, ts) =>
                      match read6F64 ts with
                      | none => none
                      | some (stot, btot, tsd, nmc, mcl3s, mcl5s, ts) =>
                          match readArrF64Block nnmc.toNat ts with
                          | none => none
                          | some (tsb, ts) =>
                              match readArrF64Block nnmc.toNat ts with
                              | none => none
                              | some (tss, ts) =>
                                  match readArrF64Block nnmc.toNat ts with
                                  | none => none
                                  | some (lrs, ts) =>
                                      match readArrF64Block nnmc.toNat ts with
                                      | none => none
                                      | some (lrb, ts) =>
                                          match readArrI32Block nnmc.toNat ts with
                                          | none => none
                                          | some (iss, ts) =>
                                              match readArrI32Block nnmc.toNat ts with
                                              | none => none
                                              | some (isb, ts) =>
                                                  some (⟨bid, bbits, nnmc, dtot,
                                                         stot, btot, tsd, nmc, mcl3s, mcl5s,
                                                         tsb, tss, lrs, lrb, iss, isb⟩, ts)

/-! ### Registry lemmas and claim theorems -/

theorem setA_setA {β : Type} (l : List (String × β)) (k : String) (v w : β) :
    setA (setA l k v) k w = setA l k w := by
  induction l with
  | nil => simp [setA]
  | cons p rest ih =>
      obtain ⟨k', v'⟩ := p
      by_cases hk : k' = k
      · simp [setA, hk]
      · simp [setA, if_neg hk, ih]

/-- Concrete fixtures: a one-entry registry whose backing file fails to
close. -/
def fErr : File := ⟨"e", some "boom", []⟩

def drvErr : RootDriver := ⟨[("e", ⟨fErr, 0, 1⟩)], [("e", true)]⟩

/-- Claim C1 counterexample: on the last close of an owned entry whose
backing dataset close fails, the error is returned but the registry entry
is NOT removed — the registry is left untouched, still containing the
entry — contradicting the claim that the entry is still removed. -/
theorem C1_counterexample :
    driverConnClose drvErr "e" = some ⟨.errC "boom", true, drvErr⟩ ∧
    lookupA drvErr.dbs "e" = some ⟨fErr, 0, 1⟩ := by
  constructor <;> rfl

/-- Claim C1 (amended): when the reference count is 1 on close, a
non-empty prepared-statement set panics (statement Close is
unimplemented) leaving the registry untouched; an owned entry whose
dataset close fails propagates the error with the registry untouched (the
entry is NOT removed); and only when no statement is open and the dataset
close succeeds (or the entry is not owned) does Close succeed and remove
the registry entry. -/
theorem C1_close_error_keeps_entry (drv : RootDriver) (key : String) (conn : ConnState)
    (h : lookupA drv.dbs key = some conn) (hr : conn.refs = 1) :
    (conn.nstop ≠ 0 →
       driverConnClose drv key = some ⟨.panickedC "not implemented", false, drv⟩) ∧
    (∀ e, conn.nstop = 0 → (lookupA drv.owns conn.file.name).getD false = true →
       conn.file.closeErr = some e →
       driverConnClose drv key = some ⟨.errC e, true, drv⟩) ∧
    (conn.nstop = 0 →
       ((lookupA drv.owns conn.file.name).getD false = false ∨ conn.file.closeErr = none) →
       driverConnClose drv key =
         some ⟨.okC, (lookupA drv.owns conn.file.name).getD false,
               { drv with dbs := eraseA drv.dbs conn.file.name }⟩) := by
  have hlt : ¬(1 < conn.refs) := by rw [hr]; omega
  refine ⟨?_, ?_, ?_⟩
  · intro hs
    simp [driverConnClose, h, hlt, hs]
  · intro e hs ho hc
    simp [driverConnClose, h, hlt, hs, ho, hc]
  · intro hs ho
    rcases ho with ho | hc
    · simp [driverConnClose, h, hlt, hs, ho, finishClose, hr]
    · cases hov : (lookupA drv.owns conn.file.name).getD false
      · simp [driverConnClose, h, hlt, hs, hov, finishClose, hr]
      · simp [driverConnClose, h, hlt, hs, hov, hc, finishClose, hr]

/-- Claim C1 witness: the amended theorem evaluated on the concrete
failing registry. -/
theorem C1_witness :
    driverConnClose drvErr "e" = some ⟨.errC "boom", true, drvErr⟩ :=
  (C1_close_error_keeps_entry drvErr "e" ⟨fErr, 0, 1⟩ rfl rfl).2.1 "boom" rfl rfl rfl

/-- Claim C4: opening the same name twice then closing once leaves the
dataset open (the file Close is not invoked) and the entry present with
refcount 1; the second close closes the dataset and removes the entry. -/
theorem C4_open_twice_close_twice (drv : RootDriver) (fname : String) (f : File)
    (h0 : lookupA drv.dbs fname = none) (hf : f.name = fname) (he : f.closeErr = none) :
    ∃ drvA drvB o1 o2,
      rootDriverOpen drv fname (.ok f) = .ok (drvA, fname) ∧
      rootDriverOpen drvA fname (.ok f) = .ok (drvB, fname) ∧
      driverConnClose drvB fname = some o1 ∧
      o1.res = .okC ∧ o1.fileClosed = false ∧
      (∃ c, lookupA o1.drv.dbs fname = some c ∧ c.refs = 1) ∧
      driverConnClose o1.drv fname = some o2 ∧
      o2.res = .okC ∧ o2.fileClosed = true ∧
      lookupA o2.drv.dbs fname = none := by
  subst hf
  set k := f.name with hk
  set c1 : ConnState := ⟨f, 0, 1⟩ with hc1
  set drvA : RootDriver := ⟨setA drv.dbs k c1, setA drv.owns k true⟩ with hdrvA
  set c2 : ConnState := ⟨f, 0, 2⟩ with hc2
  set drvB : RootDriver := { drvA with dbs := setA drvA.dbs k c2 } with hdrvB
  set drvC : RootDriver := { drvB with dbs := setA drvB.dbs k c1 } with hdrvC
  set drvD : RootDriver := { drvC with dbs := eraseA drvC.dbs k } with hdrvD
  have hA : rootDriverOpen drv k (.ok f) = .ok (drvA, k) := by
    simp [rootDriverOpen, h0, hdrvA]
  have hlookA : lookupA drvA.dbs k = some c1 := lookupA_setA_self _ _ _
  have hB : rootDriverOpen drvA k (.ok f) = .ok (drvB, k) := by
    simp [rootDriverOpen, hlookA, hdrvB, hdrvA]
  have hlookB : lookupA drvB.dbs k = some c2 := lookupA_setA_self _ _ _
  have hcl1 : driverConnClose drvB k = some ⟨.okC, false, drvC⟩ := by
    simp [driverConnClose, hlookB, hc2, hdrvC]
  have hlookC : lookupA drvC.dbs k = some c1 := lookupA_setA_self _ _ _
  have hownC : lookupA drvC.owns k = some true := lookupA_setA_self _ _ _
  have hcl2 : driverConnClose drvC k = some ⟨.okC, true, drvD⟩ := by
    simp [driverConnClose, hlookC, hc1, hownC, he, finishClose, hdrvD]
  have hfinal : lookupA drvD.dbs k = none := by
    have hcollapse : drvC.dbs = setA drv.dbs k c1 := by
      show setA (setA (setA drv.dbs k c1) k c2) k c1 = setA drv.dbs k c1
      rw [setA_setA, setA_setA]
    have : drvD.dbs = drv.dbs := by
      show eraseA drvC.dbs k = drv.dbs
      rw [hcollapse, eraseA_setA_of_not_mem drv.dbs k c1 h0]
    rw [this, h0]
  exact ⟨drvA, drvB, ⟨.okC, false, drvC⟩, ⟨.okC, true, drvD⟩,
    hA, hB, hcl1, rfl, rfl, ⟨c1, hlookC, rfl⟩, hcl2, rfl, rfl, hfinal⟩

/-- Concrete fixture for the C4 witness. -/
def fW4 : File := ⟨"d", none, []⟩

/-- Claim C4 witness: the theorem evaluated on an empty registry and a
well-behaved file. -/
theorem C4_witness :
    ∃ drvA drvB o1 o2,
      rootDriverOpen ⟨[], []⟩ "d" (.ok fW4) = .ok (drvA, "d") ∧
      rootDriverOpen drvA "d" (.ok fW4) = .ok (drvB, "d") ∧
      driverConnClose drvB "d" = some o1 ∧
      o1.res = .okC ∧ o1.fileClosed = false ∧
      (∃ c, lookupA o1.drv.dbs "d" = some c ∧ c.refs = 1) ∧
      driverConnClose o1.drv "d" = some o2 ∧
      o2.res = .okC ∧ o2.fileClosed = true ∧
      lookupA o2.drv.dbs "d" = none :=
  C4_open_twice_close_twice ⟨[], []⟩ "d" fW4 rfl rfl rfl

theorem connectN_singleton (f : File) (n : Nat) :
    ∀ (k : Int),
      connectN f n ⟨[(f.name, ⟨f, 0, k⟩)], [(f.name, false)]⟩ =
        ⟨[(f.name, ⟨f, 0, k + n⟩)], [(f.name, false)]⟩ := by
  induction n with
  | zero => intro k; simp [connectN]
  | succ n ih =>
      intro k
      have hstep : rootDriverConnect ⟨[(f.name, ⟨f, 0, k⟩)], [(f.name, false)]⟩ f =
          (⟨[(f.name, ⟨f, 0, k + 1⟩)], [(f.name, false)]⟩, f.name) := by
        simp [rootDriverConnect, lookupA, setA]
      show connectN f n (rootDriverConnect ⟨[(f.name, ⟨f, 0, k⟩)], [(f.name, false)]⟩ f).1 = _
      rw [hstep]
      show connectN f n ⟨[(f.name, ⟨f, 0, k + 1⟩)], [(f.name, false)]⟩ = _
      rw [ih (k + 1)]
      have harith : k + 1 + (n : Int) = k + ((n : Nat) + 1 : Nat) := by push_cast; ring
      rw [harith]

theorem connectN_from_empty (f : File) (n : Nat) :
    connectN f (n + 1) ⟨[], []⟩ =
      ⟨[(f.name, ⟨f, 0, (n : Int) + 1⟩)], [(f.name, false)]⟩ := by
  have hstep : rootDriverConnect ⟨[], []⟩ f =
      (⟨[(f.name, ⟨f, 0, 1⟩)], [(f.name, false)]⟩, f.name) := by
    simp [rootDriverConnect, lookupA, setA]
  show connectN f n (rootDriverConnect ⟨[], []⟩ f).1 = _
  rw [hstep]
  show connectN f n ⟨[(f.name, ⟨f, 0, 1⟩)], [(f.name, false)]⟩ = _
  rw [connectN_singleton f n 1]
  have harith : (1 : Int) + (n : Int) = (n : Int) + 1 := by ring
  rw [harith]

theorem closeNoFileN_singleton (f : File) (n : Nat) :
    closeNoFileN f.name (n + 1) ⟨[(f.name, ⟨f, 0, (n : Int) + 1⟩)], [(f.name, false)]⟩ =
      some ⟨[], [(f.name, false)]⟩ := by
  induction n with
  | zero =>
      have hcl : driverConnClose ⟨[(f.name, ⟨f, 0, 1⟩)], [(f.name, false)]⟩ f.name =
          some ⟨.okC, false, ⟨[], [(f.name, false)]⟩⟩ := by
        simp [driverConnClose, lookupA, finishClose, eraseA]
      show (match driverConnClose ⟨[(f.name, ⟨f, 0, (0 : Int) + 1⟩)], [(f.name, false)]⟩ f.name with
            | some ⟨.okC, false, drv'⟩ => closeNoFileN f.name 0 drv'
            | _ => none) = some ⟨[], [(f.name, false)]⟩
      norm_num
      rw [hcl]
      rfl
  | succ n ih =>
      have hgt : (1 : Int) < (n : Int) + 1 + 1 := by omega
      have hcl : driverConnClose ⟨[(f.name, ⟨f, 0, (n : Int) + 1 + 1⟩)], [(f.name, false)]⟩
            f.name =
          some ⟨.okC, false, ⟨[(f.name, ⟨f, 0, (n : Int) + 1⟩)], [(f.name, false)]⟩⟩ := by
        simp [driverConnClose, lookupA, hgt, setA]
      show (match driverConnClose ⟨[(f.name, ⟨f, 0, ((n : Nat) + 1 : Int) + 1⟩)],
              [(f.name, false)]⟩ f.name with
            | some ⟨.okC, false, drv'⟩ => closeNoFileN f.name (n + 1) drv'
            | _ => none) = some ⟨[], [(f.name, false)]⟩
      rw [hcl]
      exact ih

/-- Claim C5: adopting an already-open handle marks the registry entry
not-owned, and closing all n+1 connections derived from it succeeds with
the registry entry removed while the underlying handle is never closed
(closeNoFileN only advances through closes that do not invoke the file
Close). -/
theorem C5_adopt_never_closes_handle (f : File) (n : Nat) :
    (lookupA (connectN f (n + 1) ⟨[], []⟩).owns f.name).getD false = false ∧
    ∃ drv2, closeNoFileN f.name (n + 1) (connectN f (n + 1) ⟨[], []⟩) = some drv2 ∧
      lookupA drv2.dbs f.name = none := by
  rw [connectN_from_empty]
  refine ⟨by simp [lookupA], ⟨[], [(f.name, false)]⟩, closeNoFileN_singleton f n, by simp [lookupA]⟩

/-- Claim C9: for a live registry entry, a later open or adopt of the same
name only bumps the reference count: the ownership flag map is untouched
(the registered state changes only in the dbs field), the backing file is
not reopened (the external open outcome is irrelevant and unused), and the
key set of the registry is unchanged, so at most one entry per name ever
exists. -/
theorem C9_ownership_fixed_at_creation (drv : RootDriver) (fname : String)
    (conn : ConnState) (f : File) (openF : Except String File)
    (h : lookupA drv.dbs fname = some conn) (hf : f.name = fname) :
    rootDriverOpen drv fname openF =
      .ok ({ drv with dbs := setA drv.dbs fname { conn with refs := conn.refs + 1 } }, fname) ∧
    rootDriverConnect drv f =
      ({ drv with dbs := setA drv.dbs fname { conn with refs := conn.refs + 1 } }, fname) ∧
    (setA drv.dbs fname { conn with refs := conn.refs + 1 }).map Prod.fst =
      drv.dbs.map Prod.fst := by
  subst hf
  refine ⟨?_, ?_, keys_setA_of_mem _ _ _ _ h⟩
  · simp [rootDriverOpen, h]
  · simp [rootDriverConnect, h]

/-- Fixtures for the C9 witness: a registry already holding a not-owned
entry for the file. -/
def fW9 : File := ⟨"g", none, []⟩

def drvW9 : RootDriver := ⟨[("g", ⟨fW9, 0, 1⟩)], [("g", false)]⟩

/-- Claim C9 witness: on a registry with a live not-owned entry, open (with
a failing external opener, demonstrating it is not consulted) and adopt
both just bump the refcount and keep the ownership map and key set. -/
theorem C9_witness :
    rootDriverOpen drvW9 "g" (.error "unused") =
      .ok (⟨[("g", ⟨fW9, 0, 2⟩)], [("g", false)]⟩, "g") ∧
    rootDriverConnect drvW9 fW9 =
      (⟨[("g", ⟨fW9, 0, 2⟩)], [("g", false)]⟩, "g") ∧
    (setA drvW9.dbs "g" ⟨fW9, 0, 2⟩).map Prod.fst = drvW9.dbs.map Prod.fst :=
  C9_ownership_fixed_at_creation drvW9 "g" ⟨fW9, 0, 1⟩ fW9 (.error "unused") rfl rfl

/-! ### Row cursor claim theorems -/

/-- Claim C8: once the underlying scan is exhausted, Next returns the
end-of-rows sentinel and leaves the cursor unchanged, so every subsequent
Next call returns the same sentinel and never any other outcome. -/
theorem C8_eof_idempotent (r : DriverRows) (h : r.cursor.pending = []) :
    driverRowsNext r = (.eofR, r) ∧ ∀ n, iterNext n r = (.eofR, r) := by
  obtain ⟨cols, deps, cursor, ev, filt⟩ := r
  obtain ⟨scols, pending⟩ := cursor
  simp only at h
  subst h
  have h1 : driverRowsNext ⟨cols, deps, ⟨scols, []⟩, ev, filt⟩ =
      (.eofR, ⟨cols, deps, ⟨scols, []⟩, ev, filt⟩) := by
    simp [driverRowsNext, nextLoop]
  refine ⟨h1, ?_⟩
  intro n
  induction n with
  | zero => exact h1
  | succ n ih =>
      show iterNext n (driverRowsNext _).2 = _
      rw [h1]
      exact ih

/-- Fixture: a cursor whose scan is already exhausted. -/
def rowsEmptyW : DriverRows := ⟨["x"], ["x"], ⟨["x"], []⟩, .identE "x", none⟩

/-- Claim C8 witness: Next on a concrete exhausted cursor returns the
sentinel and the unchanged cursor. -/
theorem C8_witness : driverRowsNext rowsEmptyW = (.eofR, rowsEmptyW) :=
  (C8_eof_idempotent rowsEmptyW rfl).1

/-- Fixture: a cursor whose filter is the integer literal 1 (a non-boolean
filter) over a one-row scan. -/
def rowsC3 : DriverRows :=
  ⟨["x"], ["x"], ⟨["x"], [[Value.vint 7]]⟩, .identE "x", some (.valueE (.vint 1))⟩

/-- Claim C3 counterexample: on a row where the filter evaluates (without
error) to the non-boolean value 1, Next does not return any error: it
panics on the Go bool type assertion, contradicting the claim that an
EvalError is returned to the caller. -/
theorem C3_counterexample :
    evalExpr (List.zip rowsC3.deps [Value.vint 7]) (.valueE (.vint 1)) = .ok (.vint 1) ∧
    (Value.vint 1).isBool = false ∧
    (driverRowsNext rowsC3).1 = .panickedR "interface conversion" ∧
    (driverRowsNext rowsC3).1.isErr = false := by
  exact ⟨rfl, rfl, rfl, rfl⟩

/-- Claim C3 (amended): when the filter evaluation returns an error, Next
propagates that error to the caller; when the filter evaluates without
error to a non-boolean value, Next panics on the bool type assertion
instead of returning an error. -/
theorem C3_nonbool_filter_panics (r : DriverRows) (f : expression) (row : List Value)
    (rest : List (List Value))
    (hp : r.cursor.pending = row :: rest) (hf : r.filter = some f) :
    (∀ e, evalExpr (List.zip r.deps row) f = .error e → (driverRowsNext r).1 = .errR e) ∧
    (∀ v, evalExpr (List.zip r.deps row) f = .ok v → v.isBool = false →
       (driverRowsNext r).1 = .panickedR "interface conversion") := by
  constructor
  · intro e he
    simp [driverRowsNext, hp, hf, nextLoop, he]
  · intro v hv hb
    cases v <;> simp_all [driverRowsNext, hp, hf, nextLoop, Value.isBool]

/-- Claim C3 witness: the amended theorem evaluated on the concrete
literal-1 filter. -/
theorem C3_witness :
    (driverRowsNext rowsC3).1 = .panickedR "interface conversion" :=
  (C3_nonbool_filter_panics rowsC3 (.valueE (.vint 1)) [Value.vint 7] [] rfl rfl).2
    (.vint 1) rfl rfl

/-! ### Evaluation errors are never resolution errors -/

theorem applyOp_err_not_resolution (op : Op) (a b : Value) (err : SQLErr)
    (h : applyOp op a b = .error err) : err.isResolution = false := by
  unfold applyOp at h
  split at h
  all_goals
    first
      | exact Except.noConfusion h
      | (injection h with h2
         rw [← h2]
         rfl)

mutual
theorem evalExpr_err_not_resolution :
    ∀ (ctx : List (String × Value)) (e : expression) (err : SQLErr),
      evalExpr ctx e = .error err → err.isResolution = false
  | ctx, .valueE v, err, h => by simp [evalExpr] at h
  | ctx, .identE n, err, h => by
      unfold evalExpr at h
      cases hl : lookupA ctx n with
      | none =>
          rw [hl] at h
          injection h with h2
          rw [← h2]
          rfl
      | some v =>
          rw [hl] at h
          exact Except.noConfusion h
  | ctx, .binE op l r, err, h => by
      unfold evalExpr at h
      cases hl : evalExpr ctx l with
      | error el =>
          rw [hl] at h
          injection h with h2
          rw [← h2]
          exact evalExpr_err_not_resolution ctx l el hl
      | ok a =>
          rw [hl] at h
          cases hr : evalExpr ctx r with
          | error er =>
              rw [hr] at h
              injection h with h2
              rw [← h2]
              exact evalExpr_err_not_resolution ctx r er hr
          | ok b =>
              rw [hr] at h
              exact applyOp_err_not_resolution op a b err h
  | ctx, .tupleE es, err, h => by
      unfold evalExpr at h
      cases hl : evalList ctx es with
      | error el =>
          rw [hl] at h
          injection h with h2
          rw [← h2]
          exact evalList_err_not_resolution ctx es el hl
      | ok vs =>
          rw [hl] at h
          exact Except.noConfusion h

theorem evalList_err_not_resolution :
    ∀ (ctx : List (String × Value)) (es : expressionList) (err : SQLErr),
      evalList ctx es = .error err → err.isResolution = false
  | ctx, .nil, err, h => by simp [evalList] at h
  | ctx, .cons e es, err, h => by
      unfold evalList at h
      cases he : evalExpr ctx e with
      | error e1 =>
          rw [he] at h
          injection h with h2
          rw [← h2]
          exact evalExpr_err_not_resolution ctx e e1 he
      | ok v =>
          rw [he] at h
          cases hes : evalList ctx es with
          | error e2 =>
              rw [hes] at h
              injection h with h2
              rw [← h2]
              exact evalList_err_not_resolution ctx es e2 hes
          | ok vs =>
              rw [hes] at h
              exact Except.noConfusion h
end

theorem nextLoop_err_not_resolution (deps : List String) (filt : Option expression)
    (ev : expression) :
    ∀ (pend : List (List Value)) (e : SQLErr),
      (nextLoop deps filt ev pend).1 = .errR e → e.isResolution = false := by
  intro pend
  induction pend with
  | nil =>
      intro e h
      simp [nextLoop] at h
  | cons row rest ih =>
      intro e h
      simp only [nextLoop] at h
      cases filt with
      | none =>
          simp only at h
          cases hev : evalExpr (List.zip deps row) ev with
          | error e1 =>
              rw [hev] at h
              simp only at h
              injection h with h2
              rw [← h2]
              show e1.isResolution = false
              exact evalExpr_err_not_resolution _ ev e1 hev
          | ok v =>
              rw [hev] at h
              simp at h
      | some f =>
          simp only at h
          cases hf : evalExpr (List.zip deps row) f with
          | error e1 =>
              rw [hf] at h
              simp only at h
              injection h with h2
              rw [← h2]
              exact evalExpr_err_not_resolution _ f e1 hf
          | ok v =>
              rw [hf] at h
              cases v with
              | vbool b =>
                  cases b with
                  | true =>
                      simp only at h
                      cases hev : evalExpr (List.zip deps row) ev with
                      | error e1 =>
                          rw [hev] at h
                          simp only at h
                          injection h with h2
                          rw [← h2]
                          show e1.isResolution = false
                          exact evalExpr_err_not_resolution _ ev e1 hev
                      | ok v =>
                          rw [hev] at h
                          simp at h
                  | false =>
                      simp only at h
                      exact ih e h
              | vint n => simp at h
              | vstr s => simp at h
              | vbytes s => simp at h
              | vlist vs => simp at h

/-! ### Claim C2: where parse/resolution errors are detected -/

theorem resolveVars_unknown (t : RTree) :
    ∀ (ds : List String), (∃ c ∈ ds, t.branch c = none) →
      ∃ c, resolveVars t ds = .error (.unknownColumn c t.tname) ∧ t.branch c = none := by
  intro ds
  induction ds with
  | nil => rintro ⟨c, hc, _⟩; cases hc
  | cons n rest ih =>
      rintro ⟨c, hc, hnone⟩
      cases hbn : t.branch n with
      | none =>
          exact ⟨n, by simp [resolveVars, hbn], hbn⟩
      | some b =>
          have hcrest : c ∈ rest := by
            rcases List.mem_cons.mp hc with hceq | hr
            · exfalso; rw [hceq] at hnone; rw [hnone] at hbn; cases hbn
            · exact hr
          obtain ⟨c2, hres, hb2⟩ := ih ⟨c, hcrest, hnone⟩
          refine ⟨c2, ?_, hb2⟩
          simp [resolveVars, hbn, hres]

/-- Fixtures: a file with a tree `t` holding one branch `x`, and a SELECT
over it whose filter references the nonexistent column `nope`. -/
def treeT : RTree := ⟨"t", [⟨"x", "x"⟩], [[("x", Value.vint 1)]]⟩

def fileT : File := ⟨"ft", none, [("t", .treeObj treeT)]⟩

def drvT : RootDriver := ⟨[("ft", ⟨fileT, 0, 1⟩)], [("ft", true)]⟩

def badWhere : WhereClause :=
  ⟨"where", .comparisonE "=" (.colName "nope") (.sqlVal (.vint 1))⟩

def badSelect : Select := ⟨[.aliased (.colName "x") ""], [.aliasedTable "t"], some badWhere⟩

/-- Claim C2 counterexample: `nope` is not a column of the tree, yet
Prepare succeeds on the parsed statement (it performs no resolution); the
unknown-column failure instead surfaces in newDriverRows, at query time.
This contradicts the claim that Prepare fails with UnknownColumnError. -/
theorem C2_counterexample :
    treeT.branch "nope" = none ∧
    driverConnPrepare drvT "ft" (.ok (.selectS badSelect)) =
      .ok (⟨[("ft", ⟨fileT, 1, 1⟩)], [("ft", true)]⟩, .selectS badSelect) ∧
    newDriverRows fileT badSelect =
      .error (.wrapped "could not extract scan-vars" (.unknownColumn "nope" "t")) := by
  exact ⟨rfl, rfl, rfl⟩

/-- Claim C2 (amended): Prepare detects only parse failures (on a
successfully parsed statement it always succeeds, performing no
resolution); resolution failures such as an unknown column in the filter
are detected during statement compilation (newDriverRows, invoked by
Query), before any row is read; and row iteration never returns a
parse/resolution error. -/
theorem C2_resolution_in_query_not_prepare :
    (∀ (drv : RootDriver) (key : String) (conn : ConnState) (ast : Statement),
       lookupA drv.dbs key = some conn →
       driverConnPrepare drv key (.ok ast) =
         .ok ({ drv with dbs := setA drv.dbs key { conn with nstop := conn.nstop + 1 } },
              ast)) ∧
    (∀ (f : File) (name : String) (t : RTree) (stmt : Select) (ds : List String),
       stmt.fromCl = [.aliasedTable name] →
       lookupA f.objs name = some (.treeObj t) →
       stmt.selectExprs ≠ [] →
       collectDeps t stmt = .ok ds →
       (∃ c ∈ ds, t.branch c = none) →
       ∃ c, newDriverRows f stmt =
           .error (.wrapped "could not extract scan-vars" (.unknownColumn c t.tname)) ∧
         t.branch c = none) ∧
    (∀ (r : DriverRows) (e : SQLErr),
       (driverRowsNext r).1 = .errR e → e.isResolution = false) := by
  refine ⟨?_, ?_, ?_⟩
  · intro drv key conn ast h
    simp [driverConnPrepare, h]
  · intro f name t stmt ds hfrom hobj hne hdeps hmiss
    obtain ⟨c, hres, hbn⟩ := resolveVars_unknown t ds hmiss
    refine ⟨c, ?_, hbn⟩
    cases hse : stmt.selectExprs with
    | nil => exact absurd hse hne
    | cons se0 srest =>
        have hext : extractDepsFromSelect t stmt =
            .error (.unknownColumn c t.tname) := by
          simp [extractDepsFromSelect, hdeps, hres]
        simp [newDriverRows, hfrom, hobj, hse, hext]
  · intro r e h
    exact nextLoop_err_not_resolution r.deps r.filter r.eval r.cursor.pending e h

/-- Fixture: a one-row cursor whose filter references a name missing from
the row context, so Next returns an evaluation (not resolution) error. -/
def rowsC2w : DriverRows := ⟨["x"], [], ⟨[], [[]]⟩, .identE "y", some (.identE "y")⟩

/-- Claim C2 witness: the amended theorem evaluated on the concrete
registry, statement and cursor. -/
theorem C2_witness :
    driverConnPrepare drvT "ft" (.ok (.selectS badSelect)) =
      .ok (⟨[("ft", ⟨fileT, 1, 1⟩)], [("ft", true)]⟩, .selectS badSelect) ∧
    (∃ c, newDriverRows fileT badSelect =
        .error (.wrapped "could not extract scan-vars" (.unknownColumn c "t")) ∧
      treeT.branch c = none) ∧
    SQLErr.isResolution (.missingIdent "y") = false := by
  refine ⟨?_, ?_, ?_⟩
  · exact C2_resolution_in_query_not_prepare.1 drvT "ft" ⟨fileT, 0, 1⟩ (.selectS badSelect) rfl
  · exact C2_resolution_in_query_not_prepare.2.1 fileT "t" treeT badSelect ["x", "nope"]
      rfl rfl (by simp [badSelect]) rfl ⟨"nope", by simp, rfl⟩
  · exact C2_resolution_in_query_not_prepare.2.2 rowsC2w (.missingIdent "y") rfl

/-! ### Claim C6: the dependency list is the de-duplicated first-reference
order of the referenced names -/

/-- Specification-side dedup: keep the first occurrence of every name. -/
def dedupFirst : List String → List String
  | [] => []
  | x :: xs => x :: dedupFirst (xs.filter (fun y => y ≠ x))
termination_by l => l.length
decreasing_by
  simp only [List.length_cons]
  exact Nat.lt_succ_of_le (List.length_filter_le _ _)

mutual
/-- Specification-side raw reference list of an expression: every column
identifier in walk order, duplicates kept. -/
def exprCols : Expr → List String
  | .colName n => [n]
  | .sqlVal _ => []
  | .boolVal _ => []
  | .comparisonE _ l r => exprCols l ++ exprCols r
  | .andE l r => exprCols l ++ exprCols r
  | .orE l r => exprCols l ++ exprCols r
  | .parenE e => exprCols e
  | .binaryE _ l r => exprCols l ++ exprCols r
  | .unaryE _ e => exprCols e
  | .valTuple es => exprColsList es

def exprColsList : ExprList → List String
  | .nil => []
  | .cons e es => exprCols e ++ exprColsList es
end

/-- Raw references of one select expression (the alias identifier is
visited after the expression; a star contributes every branch name). -/
def rawSelRefs (t : RTree) : SelectExpr → List String
  | .aliased e a => exprCols e ++ [a]
  | .star _ => t.branchNames

/-- Raw references of a SELECT: projection list first, then WHERE. -/
def rawRefs (t : RTree) (stmt : Select) : List String :=
  (stmt.selectExprs.map (rawSelRefs t)).flatten ++
    (match stmt.whereCl with
     | none => []
     | some w => exprCols w.wexpr)

mutual
theorem collectExpr_eq_markAll : ∀ (acc : List String) (e : Expr),
    collectExpr acc e = markAll acc (exprCols e)
  | acc, .colName n => by simp [collectExpr, exprCols, markAll]
  | acc, .sqlVal v => by simp [collectExpr, exprCols, markAll]
  | acc, .boolVal b => by simp [collectExpr, exprCols, markAll]
  | acc, .comparisonE op l r => by
      rw [collectExpr, collectExpr_eq_markAll acc l,
        collectExpr_eq_markAll (markAll acc (exprCols l)) r]
      simp [exprCols, markAll, List.foldl_append]
  | acc, .andE l r => by
      rw [collectExpr, collectExpr_eq_markAll acc l,
        collectExpr_eq_markAll (markAll acc (exprCols l)) r]
      simp [exprCols, markAll, List.foldl_append]
  | acc, .orE l r => by
      rw [collectExpr, collectExpr_eq_markAll acc l,
        collectExpr_eq_markAll (markAll acc (exprCols l)) r]
      simp [exprCols, markAll, List.foldl_append]
  | acc, .parenE e => by
      rw [collectExpr, collectExpr_eq_markAll acc e]
      simp [exprCols]
  | acc, .binaryE op l r => by
      rw [collectExpr, collectExpr_eq_markAll acc l,
        collectExpr_eq_markAll (markAll acc (exprCols l)) r]
      simp [exprCols, markAll, List.foldl_append]
  | acc, .unaryE op e => by
      rw [collectExpr, collectExpr_eq_markAll acc e]
      simp [exprCols]
  | acc, .valTuple es => by
      rw [collectExpr, collectExprList_eq_markAll acc es]
      simp [exprCols]

theorem collectExprList_eq_markAll : ∀ (acc : List String) (es : ExprList),
    collectExprList acc es = markAll acc (exprColsList es)
  | acc, .nil => by simp [collectExprList, exprColsList, markAll]
  | acc, .cons e es => by
      rw [collectExprList, collectExpr_eq_markAll acc e,
        collectExprList_eq_markAll (markAll acc (exprCols e)) es]
      simp [exprColsList, markAll, List.foldl_append]
end

theorem collectSelExpr_ok (t : RTree) (acc : List String) (se : SelectExpr)
    (out : List String) (h : collectSelExpr t acc se = .ok out) :
    out = markAll acc (rawSelRefs t se) := by
  cases se with
  | aliased e a =>
      simp only [collectSelExpr] at h
      injection h with h2
      rw [← h2, collectExpr_eq_markAll]
      simp [rawSelRefs, markAll, List.foldl_append, markBranch]
  | star q =>
      simp only [collectSelExpr] at h
      split at h
      · injection h with h2
        rw [← h2]
        simp [rawSelRefs]
      · exact Except.noConfusion h

theorem foldlM_collect_ok (t : RTree) :
    ∀ (ses : List SelectExpr) (acc out : List String),
      List.foldlM (collectSelExpr t) acc ses = .ok out →
      out = markAll acc ((ses.map (rawSelRefs t)).flatten) := by
  intro ses
  induction ses with
  | nil =>
      intro acc out h
      simp only [List.foldlM] at h
      injection h with h2
      simp [← h2, markAll]
  | cons se rest ih =>
      intro acc out h
      rw [List.foldlM_cons] at h
      cases hse : collectSelExpr t acc se with
      | error e =>
          rw [hse] at h
          exact Except.noConfusion h
      | ok mid =>
          rw [hse] at h
          have hmid := collectSelExpr_ok t acc se mid hse
          have hout := ih mid out h
          rw [hout, hmid]
          simp [markAll, List.foldl_append]

theorem collectDeps_ok (t : RTree) (stmt : Select) (ds : List String)
    (h : collectDeps t stmt = .ok ds) :
    ds = markAll [] (rawRefs t stmt) := by
  unfold collectDeps at h
  cases hf : List.foldlM (collectSelExpr t) [] stmt.selectExprs with
  | error e =>
      rw [hf] at h
      exact Except.noConfusion h
  | ok acc =>
      rw [hf] at h
      have hacc := foldlM_collect_ok t stmt.selectExprs [] acc hf
      cases hw : stmt.whereCl with
      | none =>
          rw [hw] at h
          injection h with h2
          rw [← h2, hacc]
          simp [rawRefs, hw]
      | some w =>
          rw [hw] at h
          injection h with h2
          rw [← h2, collectExpr_eq_markAll, hacc]
          simp [rawRefs, hw, markAll, List.foldl_append]

theorem markAll_eq_append_dedupFirst :
    ∀ (l acc : List String),
      markAll acc l = acc ++ dedupFirst (l.filter (fun y => decide (y ≠ "" ∧ y ∉ acc))) := by
  intro l
  induction l with
  | nil => intro acc; simp [markAll, dedupFirst]
  | cons x xs ih =>
      intro acc
      by_cases hx : x ≠ "" ∧ x ∉ acc
      · have hmb : markBranch acc x = acc ++ [x] := by simp [markBranch, hx]
        have hstep : markAll acc (x :: xs) = markAll (acc ++ [x]) xs := by
          simp [markAll, hmb]
        have hpx : decide (x ≠ "" ∧ x ∉ acc) = true := by simp [hx]
        have hfc : List.filter (fun y => decide (y ≠ "" ∧ y ∉ acc)) (x :: xs) =
            x :: List.filter (fun y => decide (y ≠ "" ∧ y ∉ acc)) xs := by
          rw [List.filter_cons]
          simp [hpx]
        rw [hstep, ih (acc ++ [x]), hfc]
        have hded : dedupFirst (x :: List.filter (fun y => decide (y ≠ "" ∧ y ∉ acc)) xs) =
            x :: dedupFirst ((List.filter (fun y => decide (y ≠ "" ∧ y ∉ acc)) xs).filter
              (fun y => y ≠ x)) := by
          rw [dedupFirst]
        rw [hded, List.filter_filter]
        have hpeq : ∀ y, (decide (y ≠ x) && decide (y ≠ "" ∧ y ∉ acc)) =
            decide (y ≠ "" ∧ y ∉ acc ++ [x]) := by
          intro y
          by_cases h1 : y = ""
          · simp [h1]
          · by_cases h2 : y ∈ acc
            · simp [h1, h2, List.mem_append]
            · by_cases h3 : y = x <;> simp [h1, h2, h3, List.mem_append]
        rw [List.filter_congr (fun y _ => hpeq y)]
        simp
      · have hmb : markBranch acc x = acc := by
          simp only [markBranch, if_neg hx]
        have hstep : markAll acc (x :: xs) = markAll acc xs := by
          simp [markAll, hmb]
        have hpx : decide (x ≠ "" ∧ x ∉ acc) = false := by
          simpa using hx
        have hfc : List.filter (fun y => decide (y ≠ "" ∧ y ∉ acc)) (x :: xs) =
            List.filter (fun y => decide (y ≠ "" ∧ y ∉ acc)) xs := by
          rw [List.filter_cons]
          simp [hpx]
        rw [hstep, ih acc, hfc]

theorem markAll_nil_eq (l : List String) :
    markAll [] l = dedupFirst (l.filter (fun y => y ≠ "")) := by
  rw [markAll_eq_append_dedupFirst]
  simp only [List.nil_append]
  congr 1
  apply List.filter_congr
  intro y _
  simp

theorem resolveVars_ok (t : RTree) :
    ∀ (ds : List String) (vars : List ScanVar),
      resolveVars t ds = .ok vars →
      vars.map (fun v => v.name) = ds ∧ ∀ v ∈ vars, v.name ∈ t.branchNames := by
  intro ds
  induction ds with
  | nil =>
      intro vars h
      simp only [resolveVars] at h
      injection h with h2
      rw [← h2]
      exact ⟨rfl, by simp⟩
  | cons n rest ih =>
      intro vars h
      unfold resolveVars at h
      cases hb : t.branch n with
      | none =>
          rw [hb] at h
          exact Except.noConfusion h
      | some b =>
          rw [hb] at h
          cases hres : resolveVars t rest with
          | error e =>
              rw [hres] at h
              exact Except.noConfusion h
          | ok vs =>
              rw [hres] at h
              injection h with h2
              obtain ⟨ih1, ih2⟩ := ih vs hres
              have hfind : t.branches.find? (fun b => b.bname = n) = some b := hb
              have hname : b.bname = n := by
                have hp := List.find?_some hfind
                simpa using hp
              constructor
              · rw [← h2]
                simp only [List.map_cons, ih1]
                rw [hname]
              · intro v hv
                rw [← h2] at hv
                rcases List.mem_cons.mp hv with hveq | hvr
                · have hbmem : b ∈ t.branches := List.mem_of_find?_eq_some hfind
                  rw [hveq]
                  exact List.mem_map.mpr ⟨b, hbmem, rfl⟩
                · exact ih2 v hvr

/-- Claim C6: whenever the dependency analysis succeeds, the produced scan
variables are named exactly by the referenced column names in
first-reference order with duplicates (and empty names) removed, each
resolved name is a schema branch, and the storage scan is opened over
exactly that column list; whenever some collected name has no branch in
the schema, the analysis fails with the unknown-column error. -/
theorem C6_dependency_analysis (t : RTree) (stmt : Select) :
    (∀ vars, extractDepsFromSelect t stmt = .ok vars →
       vars.map (fun v => v.name) =
         dedupFirst ((rawRefs t stmt).filter (fun y => y ≠ "")) ∧
       (∀ v ∈ vars, v.name ∈ t.branchNames) ∧
       (newTreeScannerVars t vars).cols = vars.map (fun v => v.name)) ∧
    (∀ ds, collectDeps t stmt = .ok ds → (∃ c ∈ ds, t.branch c = none) →
       ∃ c, extractDepsFromSelect t stmt = .error (.unknownColumn c t.tname) ∧
         t.branch c = none) := by
  constructor
  · intro vars h
    unfold extractDepsFromSelect at h
    cases hcd : collectDeps t stmt with
    | error e =>
        rw [hcd] at h
        exact Except.noConfusion h
    | ok ds =>
        rw [hcd] at h
        obtain ⟨h1, h2⟩ := resolveVars_ok t ds vars h
        have hds := collectDeps_ok t stmt ds hcd
        refine ⟨?_, h2, rfl⟩
        rw [h1, hds, markAll_nil_eq]
  · intro ds hcd hmiss
    obtain ⟨c, hres, hb⟩ := resolveVars_unknown t ds hmiss
    exact ⟨c, by simp [extractDepsFromSelect, hcd, hres], hb⟩

/-- Fixtures for the C6 witness: a two-branch tree and a query referencing
x twice in the projection and y in the filter. -/
def treeW6 : RTree := ⟨"w", [⟨"x", "lx"⟩, ⟨"y", "ly"⟩], []⟩

def stmtW6 : Select :=
  ⟨[.aliased (.binaryE "+" (.colName "x") (.colName "x")) ""],
   [.aliasedTable "w"],
   some ⟨"where", .comparisonE ">" (.colName "y") (.sqlVal (.vint 0))⟩⟩

def varsW6 : List ScanVar := [⟨"x", "lx"⟩, ⟨"y", "ly"⟩]

/-- Claim C6 witness: the theorem evaluated on the concrete query, where
the analysis yields exactly x then y. -/
theorem C6_witness :
    varsW6.map (fun v => v.name) =
      dedupFirst ((rawRefs treeW6 stmtW6).filter (fun y => y ≠ "")) ∧
    (∀ v ∈ varsW6, v.name ∈ treeW6.branchNames) ∧
    (newTreeScannerVars treeW6 varsW6).cols = varsW6.map (fun v => v.name) :=
  (C6_dependency_analysis treeW6 stmtW6).1 varsW6 rfl

/-! ### Claim C7: projection compilation -/

theorem newExprList_colNames : ∀ (names : List String),
    newExprList (toExprList (names.map Expr.colName)) =
      .ok (toExpressionList (names.map expression.identE)) := by
  intro names
  induction names with
  | nil => rfl
  | cons n ns ih =>
      simp only [List.map_cons, toExprList, newExprList, newExprFrom, toExpressionList, ih]

theorem newExprFrom_colTuple (names : List String) :
    newExprFrom (.valTuple (toExprList (names.map Expr.colName))) =
      .ok (.tupleE (toExpressionList (names.map expression.identE))) := by
  rw [newExprFrom, newExprList_colNames]

/-- Shared shape lemma: a successful newDriverRows takes its output
columns from extractColsFromSelect on the first select expression and its
projection from compileProjection on it. -/
theorem newDriverRows_ok_fields (f : File) (name : String) (t : RTree) (stmt : Select)
    (se0 : SelectExpr) (srest : List SelectExpr) (rows : DriverRows)
    (hfrom : stmt.fromCl = [.aliasedTable name])
    (hobj : lookupA f.objs name = some (.treeObj t))
    (hsel : stmt.selectExprs = se0 :: srest)
    (h : newDriverRows f stmt = .ok rows) :
    rows.cols = extractColsFromSelect t se0 ∧
    ∃ ev, compileProjection (extractColsFromSelect t se0) se0 = .ok ev ∧ rows.eval = ev := by
  simp only [newDriverRows, hfrom, hobj, hsel] at h
  cases hdeps : extractDepsFromSelect t stmt with
  | error e =>
      rw [hdeps] at h
      exact Except.noConfusion h
  | ok vars =>
      rw [hdeps] at h
      cases hcp : compileProjection (extractColsFromSelect t se0) se0 with
      | error e =>
          rw [hcp] at h
          exact Except.noConfusion h
      | ok ev =>
          rw [hcp] at h
          cases hw : stmt.whereCl with
          | none =>
              rw [hw] at h
              injection h with h2
              rw [← h2]
              exact ⟨rfl, ev, rfl, rfl⟩
          | some w =>
              rw [hw] at h
              by_cases hwt : w.typ = "where"
              · simp only [hwt, if_pos] at h
                cases hfe : newExprFrom w.wexpr with
                | error e =>
                    rw [hfe] at h
                    exact Except.noConfusion h
                | ok fe =>
                    rw [hfe] at h
                    injection h with h2
                    rw [← h2]
                    exact ⟨rfl, ev, rfl, rfl⟩
              · simp only [if_neg hwt] at h
                exact Except.noConfusion h

/-- Claim C7: for SELECT star, the compiled projection is a tuple
expression referencing every schema column in schema order and the output
columns are exactly the schema columns in that order; for an explicit
expression list, only the first expression is compiled. -/
theorem C7_projection (f : File) (name : String) (t : RTree) (stmt : Select)
    (hfrom : stmt.fromCl = [.aliasedTable name])
    (hobj : lookupA f.objs name = some (.treeObj t)) :
    (∀ q rows, stmt.selectExprs = [.star q] → newDriverRows f stmt = .ok rows →
       driverRowsColumns rows = t.branchNames ∧
       rows.eval = .tupleE (toExpressionList (t.branchNames.map expression.identE))) ∧
    (∀ e a rest rows, stmt.selectExprs = .aliased e a :: rest →
       newDriverRows f stmt = .ok rows →
       ∃ ev, newExprFrom e = .ok ev ∧ rows.eval = ev) := by
  constructor
  · intro q rows hsel h
    obtain ⟨hcols, ev, hcp, heval⟩ :=
      newDriverRows_ok_fields f name t stmt (.star q) [] rows hfrom hobj hsel h
    have hstar : extractColsFromSelect t (.star q) = t.branchNames := rfl
    rw [hstar] at hcols hcp
    have hcp2 : compileProjection t.branchNames (.star q) =
        .ok (.tupleE (toExpressionList (t.branchNames.map expression.identE))) := by
      simp [compileProjection, newExprFrom_colTuple]
    rw [hcp2] at hcp
    injection hcp with h3
    exact ⟨hcols, by rw [heval, ← h3]⟩
  · intro e a rest rows hsel h
    obtain ⟨hcols, ev, hcp, heval⟩ :=
      newDriverRows_ok_fields f name t stmt (.aliased e a) rest rows hfrom hobj hsel h
    simp only [compileProjection] at hcp
    cases hfe : newExprFrom e with
    | error err =>
        rw [hfe] at hcp
        exact Except.noConfusion hcp
    | ok ev2 =>
        rw [hfe] at hcp
        injection hcp with h3
        exact ⟨ev2, rfl, by rw [heval, ← h3]⟩

/-- Fixtures for the C7 witness: a star query and an explicit-projection
query over the one-branch tree. -/
def starSelect : Select := ⟨[.star ""], [.aliasedTable "t"], none⟩

def rowsStarW : DriverRows :=
  ⟨["x"], ["x"], ⟨["x"], [[Value.vint 1]]⟩,
   .tupleE (.cons (.identE "x") .nil), none⟩

def xSelect : Select := ⟨[.aliased (.colName "x") ""], [.aliasedTable "t"], none⟩

def rowsXW : DriverRows := ⟨["x"], ["x"], ⟨["x"], [[Value.vint 1]]⟩, .identE "x", none⟩

/-- Claim C7 witness: the theorem evaluated on the concrete star query and
on the concrete single-column query. -/
theorem C7_witness :
    (driverRowsColumns rowsStarW = treeT.branchNames ∧
     rowsStarW.eval = .tupleE (toExpressionList (treeT.branchNames.map expression.identE))) ∧
    (∃ ev, newExprFrom (.colName "x") = .ok ev ∧ rowsXW.eval = ev) := by
  constructor
  · exact (C7_projection fileT "t" treeT starSelect rfl rfl).1 "" rowsStarW rfl rfl
  · exact (C7_projection fileT "t" treeT xSelect rfl rfl).2 (.colName "x") "" [] rowsXW rfl rfl

/-! ### Claim C10: ConfidenceLevel marshal/unmarshal round-trip -/

theorem readArrayF64_map {α : Type} : ∀ (l : List α) (rest : List (Tok α)),
    readArrayF64 l.length (l.map Tok.f64 ++ rest) = some (l, rest) := by
  intro l
  induction l with
  | nil => intro rest; rfl
  | cons a as ih => intro rest; simp [readArrayF64, ih]

theorem readArrayI32_map {α : Type} : ∀ (l : List Int) (rest : List (Tok α)),
    readArrayI32 l.length ((l.map Tok.i32 : List (Tok α)) ++ rest) = some (l, rest) := by
  intro l
  induction l with
  | nil => intro rest; rfl
  | cons a as ih => intro rest; simp [readArrayI32, ih]

theorem readArrF64Block_exact {α : Type} (l : List α) (rest : List (Tok α)) (n : Nat)
    (h : n = l.length) :
    readArrF64Block n (Tok.i8 1 :: (l.map Tok.f64 ++ rest)) = some (l, rest) := by
  subst h
  simp [readArrF64Block, readI8, readArrayF64_map]

theorem readArrI32Block_exact {α : Type} (l : List Int) (rest : List (Tok α)) (n : Nat)
    (h : n = l.length) :
    readArrI32Block n (Tok.i8 1 :: ((l.map Tok.i32 : List (Tok α)) ++ rest)) =
      some (l, rest) := by
  subst h
  simp [readArrI32Block, readI8, readArrayI32_map]

/-- Claim C10: for a ConfidenceLevel whose fNNMC is non-negative and at
most the length of each array field, unmarshalling the marshalled token
stream succeeds, restoring every scalar field exactly and each array field
as the first fNNMC elements of the original, leaving trailing tokens
untouched. -/
theorem C10_roundtrip {α : Type} (o : ConfidenceLevel α) (extra : List (Tok α))
    (h0 : 0 ≤ o.fNNMC)
    (h1 : o.fNNMC.toNat ≤ o.fTSB.length) (h2 : o.fNNMC.toNat ≤ o.fTSS.length)
    (h3 : o.fNNMC.toNat ≤ o.fLRS.length) (h4 : o.fNNMC.toNat ≤ o.fLRB.length)
    (h5 : o.fNNMC.toNat ≤ o.fISS.length) (h6 : o.fNNMC.toNat ≤ o.fISB.length) :
    ∃ toks, o.MarshalROOT = some toks ∧
      ConfidenceLevel.UnmarshalROOT (toks ++ extra) =
        some ({ o with
                  fTSB := o.fTSB.take o.fNNMC.toNat,
                  fTSS := o.fTSS.take o.fNNMC.toNat,
                  fLRS := o.fLRS.take o.fNNMC.toNat,
                  fLRB := o.fLRB.take o.fNNMC.toNat,
                  fISS := o.fISS.take o.fNNMC.toNat,
                  fISB := o.fISB.take o.fNNMC.toNat }, extra) := by
  have hs1 : sliceTo o.fTSB o.fNNMC = some (o.fTSB.take o.fNNMC.toNat) := by
    simp [sliceTo, h0, h1]
  have hs2 : sliceTo o.fTSS o.fNNMC = some (o.fTSS.take o.fNNMC.toNat) := by
    simp [sliceTo, h0, h2]
  have hs3 : sliceTo o.fLRS o.fNNMC = some (o.fLRS.take o.fNNMC.toNat) := by
    simp [sliceTo, h0, h3]
  have hs4 : sliceTo o.fLRB o.fNNMC = some (o.fLRB.take o.fNNMC.toNat) := by
    simp [sliceTo, h0, h4]
  have hs5 : sliceTo o.fISS o.fNNMC = some (o.fISS.take o.fNNMC.toNat) := by
    simp [sliceTo, h0, h5]
  have hs6 : sliceTo o.fISB o.fNNMC = some (o.fISB.take o.fNNMC.toNat) := by
    simp [sliceTo, h0, h6]
  have hm : o.MarshalROOT =
      some ([Tok.vers rversConfidenceLevel, Tok.base o.baseId o.baseBits,
             Tok.i32 o.fNNMC, Tok.i32 o.fDtot,
             Tok.f64 o.fStot, Tok.f64 o.fBtot, Tok.f64 o.fTSD,
             Tok.f64 o.fNMC, Tok.f64 o.fMCL3S, Tok.f64 o.fMCL5S]
            ++ Tok.i8 1 :: (o.fTSB.take o.fNNMC.toNat).map Tok.f64
            ++ Tok.i8 1 :: (o.fTSS.take o.fNNMC.toNat).map Tok.f64
            ++ Tok.i8 1 :: (o.fLRS.take o.fNNMC.toNat).map Tok.f64
            ++ Tok.i8 1 :: (o.fLRB.take o.fNNMC.toNat).map Tok.f64
            ++ Tok.i8 1 :: (o.fISS.take o.fNNMC.toNat).map Tok.i32
            ++ Tok.i8 1 :: (o.fISB.take o.fNNMC.toNat).map Tok.i32) := by
    rw [ConfidenceLevel.MarshalROOT, hs1, hs2, hs3, hs4, hs5, hs6]
  refine ⟨_, hm, ?_⟩
  have hneg : ¬ o.fNNMC < 0 := not_lt.mpr h0
  have hlt : ¬ rversConfidenceLevel < rversConfidenceLevel := lt_irrefl _
  have e1 : o.fNNMC.toNat = (o.fTSB.take o.fNNMC.toNat).length := by
    rw [List.length_take]; omega
  have e2 : o.fNNMC.toNat = (o.fTSS.take o.fNNMC.toNat).length := by
    rw [List.length_take]; omega
  have e3 : o.fNNMC.toNat = (o.fLRS.take o.fNNMC.toNat).length := by
    rw [List.length_take]; omega
  have e4 : o.fNNMC.toNat = (o.fLRB.take o.fNNMC.toNat).length := by
    rw [List.length_take]; omega
  have e5 : o.fNNMC.toNat = (o.fISS.take o.fNNMC.toNat).length := by
    rw [List.length_take]; omega
  have e6 : o.fNNMC.toNat = (o.fISB.take o.fNNMC.toNat).length := by
    rw [List.length_take]; omega
  simp only [List.cons_append, List.nil_append, List.append_assoc]
  rw [ConfidenceLevel.UnmarshalROOT]
  simp only [readVersion, readBase, readI32, read6F64, hlt, if_neg, hneg, if_false]
  simp only [readArrF64Block_exact _ _ _ e1, readArrF64Block_exact _ _ _ e2,
    readArrF64Block_exact _ _ _ e3, readArrF64Block_exact _ _ _ e4,
    readArrI32Block_exact _ _ _ e5, readArrI32Block_exact _ _ _ e6]

/-- Fixture for the C10 witness: a concrete ConfidenceLevel (integer
float-payload carrier) with fNNMC = 1 and longer backing arrays. -/
def oW : ConfidenceLevel Int :=
  ⟨1, 2, 1, 3, 10, 11, 12, 13, 14, 15, [100, 101], [110], [120], [130], [7, 8], [9]⟩

/-- Claim C10 witness: the round-trip theorem evaluated on the concrete
value. -/
theorem C10_witness :
    ∃ toks, ConfidenceLevel.MarshalROOT oW = some toks ∧
      ConfidenceLevel.UnmarshalROOT (toks ++ []) =
        some ({ oW with
                  fTSB := oW.fTSB.take oW.fNNMC.toNat,
                  fTSS := oW.fTSS.take oW.fNNMC.toNat,
                  fLRS := oW.fLRS.take oW.fNNMC.toNat,
                  fLRB := oW.fLRB.take oW.fNNMC.toNat,
                  fISS := oW.fISS.take oW.fNNMC.toNat,
                  fISB := oW.fISB.take oW.fNNMC.toNat }, []) :=
  C10_roundtrip oW [] (by decide) (by decide) (by decide) (by decide)
    (by decide) (by decide) (by decide)
